import Mathlib

/-!
Verification of the Tasky command-line to-do list manager (`src/index.js`)
against its natural-language specification.

The program keeps an in-memory array `db.data.tasks` of task records and
flushes the whole array to a JSON file with `await db.write()` after every
mutation.  Each interactive command (`addTask`, `listTasks`, `updateTask`,
`markComplete`, `removeTask`, `clearCompleted`) is embedded below as a pure
function on an explicit `Store` state.  Inputs that the program collects
through interactive prompts (titles, ids, confirmations) are function
arguments here; the success or failure of the JSON file write is the
explicit `writeOk : Bool` argument, since the source wraps the mutation and
the write in `try ... catch` and reports failure without undoing anything.

JavaScript numbers are modelled as rationals (`ℚ`): every comparison the
source performs on a `priority` value (`z.number().min(1).max(3)`,
`a.priority - b.priority`) is exact on the rationals involved, so no
floating-point rounding is relevant.  `dayjs(v).isValid()` and the
chronological value of a date string are modelled by oracle parameters
`dateValid : String → Bool` and `parse : String → Int`, quantified over in
the theorems.
-/

namespace Tasky

/-- A task record as built at `src/index.js` lines 129-137: fields `id`,
`title`, `description`, `dueDate`, `createdAt`, `priority`, `completed`. -/
structure Task where
  id : String
  title : String
  description : String
  dueDate : String
  createdAt : String
  priority : ℚ
  completed : Bool
deriving DecidableEq, Repr

/-- Outcome of one command, as observable at the terminal: `ok` is the green
success message, `validationError` a caught `ZodError`, `notFound` the caught
`TypeError` from indexing with `findIndex = -1`, `persistError` a caught
`db.write` failure, `cancelled` a declined confirmation prompt, and `noop`
the early return printed in yellow when the command has nothing to act on. -/
inductive OpResult where
  | ok
  | validationError
  | notFound
  | persistError
  | cancelled
  | noop
deriving DecidableEq, Repr

/-- The store state: `mem` is the in-memory array `db.data.tasks`, `disk` the
task array in the persisted `db.json` as of the last successful `db.write`. -/
structure Store where
  mem : List Task
  disk : List Task
deriving DecidableEq, Repr

/-- The zod schema `taskSchema` (lines 17-27) as a boolean check:
`z.string().min(1)` on `title` (length at least 1, no trimming),
`dayjs(val).isValid()` on `dueDate` via the `dateValid` oracle, and
`z.number().min(1).max(3)` on `priority` (the interval `[1, 3]`, with no
integrality requirement).  `id`, `description`, `createdAt`, `completed` are
only type-checked by the schema, which the `Task` structure already ensures. -/
def taskSchemaCheck (dateValid : String → Bool) (t : Task) : Bool :=
  decide (1 ≤ t.title.length) && dateValid t.dueDate &&
    (decide ((1 : ℚ) ≤ t.priority) && decide (t.priority ≤ (3 : ℚ)))

/-- The lookup `db.data.tasks.find((t) => t.id === taskId)` (line 247); this
is the program's realisation of the spec's `findById`. -/
def findById (tasks : List Task) (taskId : String) : Option Task :=
  tasks.find? (fun t => t.id == taskId)

/-- `addTask` (lines 139-148), after the prompts: validate the new task with
`taskSchema.parse` (a failure throws before any mutation), push it onto
`db.data.tasks`, then `await db.write()`.  A write failure is caught by the
`catch` block, which only prints a message: the pushed task stays in memory
while the file keeps its previous contents.  No duplicate-id check exists. -/
def addTask (dateValid : String → Bool) (s : Store) (newTask : Task)
    (writeOk : Bool) : Store × OpResult :=
  if taskSchemaCheck dateValid newTask then
    let mem' := s.mem ++ [newTask]
    if writeOk then (⟨mem', mem'⟩, .ok) else (⟨mem', s.disk⟩, .persistError)
  else (s, .validationError)

/-- The merged task built at lines 285-291: `{ ...task, title, description,
dueDate, priority }` — `id`, `createdAt` and `completed` are spread from the
existing task and never overwritten. -/
def mergeTask (old : Task) (title description dueDate : String)
    (priority : ℚ) : Task :=
  { old with title := title, description := description,
             dueDate := dueDate, priority := priority }

/-- `updateTask` (lines 231-304), after the prompts: early return when the
collection is empty (line 232); otherwise look the task up by id, build the
merged task, validate it, overwrite `db.data.tasks[taskIndex]` and write.
When the id is absent, `find` yields `undefined` and spreading it produces an
object with no `id`, `createdAt` or `completed` field, so `taskSchema.parse`
throws: the embedded result is `validationError` with the state unchanged.
A write failure is caught with the in-place overwrite still in memory. -/
def updateTask (dateValid : String → Bool) (s : Store) (taskId : String)
    (title description dueDate : String) (priority : ℚ)
    (writeOk : Bool) : Store × OpResult :=
  if s.mem.isEmpty then (s, .noop)
  else
    match findById s.mem taskId with
    | none => (s, .validationError)
    | some old =>
      let updated := mergeTask old title description dueDate priority
      if taskSchemaCheck dateValid updated then
        let i := s.mem.findIdx (fun t => t.id == taskId)
        let mem' := s.mem.set i updated
        if writeOk then (⟨mem', mem'⟩, .ok)
        else (⟨mem', s.disk⟩, .persistError)
      else (s, .validationError)

/-- The core of `markComplete` (lines 327-335), given the selected id:
`findIndex` the task, set `completed = true` in place, write.  When the id is
absent, `findIndex` returns `-1` and `db.data.tasks[-1].completed = true`
throws a `TypeError` that the `catch` reports as a failure with nothing
mutated — embedded as `notFound`.  The surrounding prompt (lines 308-323)
only offers ids of incomplete tasks and is part of the UI layer, so the id is
a free argument here.  A write failure leaves the flag set in memory. -/
def markComplete (s : Store) (taskId : String) (writeOk : Bool) :
    Store × OpResult :=
  let i := s.mem.findIdx (fun t => t.id == taskId)
  if h : i < s.mem.length then
    let mem' := s.mem.set i { s.mem.get ⟨i, h⟩ with completed := true }
    if writeOk then (⟨mem', mem'⟩, .ok) else (⟨mem', s.disk⟩, .persistError)
  else (s, .notFound)

/-- `removeTask` (lines 339-377): early return when the collection is empty,
early return when the confirmation prompt is declined, otherwise filter out
every task whose id equals the selected id and write.  There is no
present-or-not check: filtering an absent id succeeds with the collection
unchanged.  A write failure leaves the filtered collection in memory. -/
def removeTask (s : Store) (taskId : String) (confirm : Bool)
    (writeOk : Bool) : Store × OpResult :=
  if s.mem.isEmpty then (s, .noop)
  else if !confirm then (s, .cancelled)
  else
    let mem' := s.mem.filter (fun t => !(t.id == taskId))
    if writeOk then (⟨mem', mem'⟩, .ok) else (⟨mem', s.disk⟩, .persistError)

/-- `clearCompleted` (lines 380-410): count the completed tasks (line 381);
early return when there are none, early return on a declined confirmation,
otherwise keep only the incomplete tasks and write.  The `Nat` component is
the count `completedTasks.length` shown in the prompt and in the success
message.  A write failure leaves the filtered collection in memory. -/
def clearCompleted (s : Store) (confirm : Bool) (writeOk : Bool) :
    Store × Nat × OpResult :=
  let completedCount := (s.mem.filter (fun t => t.completed)).length
  if completedCount = 0 then (s, 0, .noop)
  else if !confirm then (s, completedCount, .cancelled)
  else
    let mem' := s.mem.filter (fun t => !t.completed)
    if writeOk then (⟨mem', mem'⟩, completedCount, .ok)
    else (⟨mem', s.disk⟩, completedCount, .persistError)

/-- Sort keys offered by the `listTasks` prompt (lines 158-168). -/
inductive SortKey where
  | dueDate
  | priority
  | completed
  | createdAt
deriving DecidableEq, Repr

/-- The comparator passed to `tasksToDisplay.sort` (lines 184-192).  For the
`priority` key it returns `a.priority - b.priority`; for `completed` it
returns `0`, `1` or `-1`; for the date keys it returns
`dayjs(a[sortBy]).isBefore(dayjs(b[sortBy])) ? -1 : 1` — note it never
returns `0` on equal dates.  Chronological comparison of the stored strings
is the `parse` oracle (the timestamp `dayjs` assigns to the string).  The
sort consults this comparator only through the strict test `cmp < 0` (see
`jsSort`), under which the date branches are exactly the strict order on
parsed dates, so the positive value reported for a tie never reaches a
branch. -/
def sortComparator (parse : String → Int) (sortBy : SortKey) (a b : Task) :
    ℚ :=
  match sortBy with
  | .priority => a.priority - b.priority
  | .completed => if a.completed = b.completed then 0
                  else if a.completed then 1 else -1
  | .dueDate => if parse a.dueDate < parse b.dueDate then -1 else 1
  | .createdAt => if parse a.createdAt < parse b.createdAt then -1 else 1

/-- Split of a list into two contiguous halves, the splitting step of the
merge-sort model of `Array.prototype.sort` (the engine's TimSort merges
contiguous runs, so the halves must be contiguous slices for the model to
reproduce its tie behaviour). -/
def jsSplit {α : Type} (l : List α) : List α × List α :=
  (l.take ((l.length + 1) / 2), l.drop ((l.length + 1) / 2))

/-- Fuelled stable merge of two contiguous runs, driven by `lt a b`, the
model of the single comparator test the engine performs, `cmp(a, b) < 0`:
the head `y` of the right run is taken first exactly when `lt y x`, i.e.
when `cmp(y, x) < 0`; on a tie — whatever positive value the comparator
reports for it — the left (earlier) element `x` stays first, which is what
makes the merge stable.  The fuel argument makes the recursion structural;
it is always called with fuel at least the sum of the lengths, so the `0`
fallback is never reached on such calls. -/
def jsMergeFuel {α : Type} (lt : α → α → Bool) :
    Nat → List α → List α → List α
  | 0, xs, ys => xs ++ ys
  | _ + 1, [], ys => ys
  | _ + 1, x :: xs, [] => x :: xs
  | fuel + 1, x :: xs, y :: ys =>
    if lt y x then y :: jsMergeFuel lt fuel (x :: xs) ys
    else x :: jsMergeFuel lt fuel xs (y :: ys)

/-- Merge with enough fuel for the whole of both lists. -/
def jsMerge {α : Type} (lt : α → α → Bool) (xs ys : List α) : List α :=
  jsMergeFuel lt (xs.length + ys.length) xs ys

/-- Fuelled top-down merge sort over contiguous halves.  With fuel at least
the length of the list the `0` fallback is never reached. -/
def jsSortFuel {α : Type} (lt : α → α → Bool) : Nat → List α → List α
  | 0, l => l
  | _ + 1, [] => []
  | _ + 1, [x] => [x]
  | fuel + 1, x :: y :: rest =>
    let p := jsSplit (x :: y :: rest)
    jsMerge lt (jsSortFuel lt fuel p.1) (jsSortFuel lt fuel p.2)

/-- Model of `Array.prototype.sort(cmp)` as implemented by Node's V8
engine: its TimSort consults the comparator only through the strict test
`cmp(a, b) < 0` — run detection, binary insertion and the merges all branch
on that single test, taking a right-run element before a left-run one
exactly when `cmp(right, left) < 0` and keeping the left element first
otherwise.  The model is the stable merge sort driven by
`lt a b = (cmp a b < 0)`: for the date comparator below `lt` is exactly the
strict order on parsed dates, so equal-key elements, whose ties the
comparator reports as `1`, are never reordered. -/
def jsSort {α : Type} (lt : α → α → Bool) (l : List α) : List α :=
  jsSortFuel lt l.length l

/-- The pure part of `listTasks` (lines 177-192): copy the collection,
drop completed tasks unless `showCompleted`, then sort with the comparator,
the sort consulting it through the `cmp < 0` test only. -/
def listTasks (parse : String → Int) (tasks : List Task) (sortBy : SortKey)
    (showCompleted : Bool) : List Task :=
  let tasksToDisplay := if showCompleted then tasks
                        else tasks.filter (fun t => !t.completed)
  jsSort (fun a b => decide (sortComparator parse sortBy a b < 0))
    tasksToDisplay

/-- The parsed persisted document: `db.data` after `db.read()`.  The outer
`Option` is JavaScript truthiness of `db.data` (a missing file or a `null`
document read as `none`); the inner `tasks` field is itself optional, since a
document object may lack the `tasks` key entirely. -/
structure DBDoc where
  tasks : Option (List Task)
deriving DecidableEq, Repr

/-- `initializeDB` (lines 30-34): `db.data ||= { tasks: [] }` assigns the
default only when `db.data` is falsy; any object already present — even one
without a `tasks` field — is truthy and kept as-is. -/
def initializeDB (data : Option DBDoc) : DBDoc :=
  match data with
  | none => ⟨some []⟩
  | some doc => doc

/-! ### Concrete instances used by counterexamples and witnesses -/

/-- Date oracle accepting every string (all the concrete dates below are
well-formed `YYYY-MM-DD` strings, which `dayjs` accepts). -/
def dvAll : String → Bool := fun _ => true

/-- A concrete chronological oracle for the examples: all concrete tasks
below carry equal date strings wherever equal dates are intended, so any
function of the string is a faithful instance; string length is used because
it is easy to evaluate. -/
def parseLen : String → Int := fun s => (s.length : Int)

/-- Sample task, id "1". -/
def tA : Task :=
  { id := "1", title := "Buy milk", description := "",
    dueDate := "2024-01-01", createdAt := "2024-01-01T00:00:00",
    priority := 2, completed := false }

/-- Sample task, id "2", same due date as `tA`. -/
def tB : Task :=
  { id := "2", title := "Walk dog", description := "",
    dueDate := "2024-01-01", createdAt := "2024-01-02T00:00:00",
    priority := 1, completed := false }

/-- Task with the fractional priority 3/2, which `z.number().min(1).max(3)`
accepts. -/
def tHalf : Task :=
  { id := "9", title := "x", description := "",
    dueDate := "2024-01-03", createdAt := "2024-01-03T00:00:00",
    priority := mkRat 3 2, completed := false }

/-- Task sharing the id of `tA` with different content. -/
def tDupA : Task :=
  { id := "1", title := "Duplicate", description := "",
    dueDate := "2024-01-04", createdAt := "2024-01-04T00:00:00",
    priority := 2, completed := false }

/-- The empty store, memory and disk in agreement. -/
def store0 : Store := ⟨[], []⟩

/-- A one-task store, memory and disk in agreement. -/
def store1 : Store := ⟨[tA], [tA]⟩

/-! ### Auxiliary lemmas about the list operations used by the commands -/

lemma findIdx_lt_iff_find? {α : Type} (p : α → Bool) :
    ∀ l : List α, l.findIdx p < l.length ↔ l.find? p ≠ none := by
  intro l
  induction l with
  | nil => simp
  | cons a l ih =>
    cases hpa : p a with
    | true =>
      simp [List.findIdx_cons, hpa, List.find?_cons_of_pos _ hpa]
    | false =>
      have hfind : (a :: l).find? p = l.find? p :=
        List.find?_cons_of_neg _ (by simp [hpa])
      have hidx : (a :: l).findIdx p = l.findIdx p + 1 := by
        simp [List.findIdx_cons, hpa]
      rw [hfind, hidx, List.length_cons, Nat.succ_lt_succ_iff]
      exact ih

lemma find?_set_findIdx {α : Type} (p : α → Bool) (u : α) (hu : p u = true) :
    ∀ l : List α, l.findIdx p < l.length →
      (l.set (l.findIdx p) u).find? p = some u := by
  intro l
  induction l with
  | nil => intro h; simp at h
  | cons a l ih =>
    intro h
    cases hpa : p a with
    | true =>
      have h0 : (a :: l).findIdx p = 0 := by simp [List.findIdx_cons, hpa]
      rw [h0]
      show (u :: l).find? p = some u
      exact List.find?_cons_of_pos _ hu
    | false =>
      have h1 : (a :: l).findIdx p = l.findIdx p + 1 := by
        simp [List.findIdx_cons, hpa]
      rw [h1]
      show (a :: l.set (l.findIdx p) u).find? p = some u
      rw [List.find?_cons_of_neg _ (by simp [hpa])]
      apply ih
      rw [h1] at h
      exact Nat.succ_lt_succ_iff.mp h

lemma findIdx_pred_true {α : Type} (p : α → Bool) (l : List α)
    (h : l.findIdx p < l.length) : p (l.get ⟨l.findIdx p, h⟩) = true := by
  rw [List.get_eq_getElem]
  exact List.findIdx_getElem

lemma jsMergeFuel_mem {α : Type} (lt : α → α → Bool) :
    ∀ (fuel : Nat) (xs ys : List α) (z : α),
      z ∈ jsMergeFuel lt fuel xs ys ↔ z ∈ xs ∨ z ∈ ys := by
  intro fuel
  induction fuel with
  | zero => intro xs ys z; simp [jsMergeFuel]
  | succ fuel ih =>
    intro xs ys z
    cases xs with
    | nil => simp [jsMergeFuel]
    | cons x xs =>
      cases ys with
      | nil => simp [jsMergeFuel]
      | cons y ys =>
        rw [jsMergeFuel]
        cases hlt : lt y x with
        | true =>
          rw [if_pos rfl]
          simp only [ih, List.mem_cons]
          tauto
        | false =>
          rw [if_neg (by simp)]
          simp only [ih, List.mem_cons]
          tauto

lemma jsMergeFuel_pairwise {α : Type} {R : α → α → Prop} (lt : α → α → Bool)
    (htrans : ∀ a b c, R a b → R b c → R a c)
    (hT : ∀ a b, lt a b = true → R a b)
    (hF : ∀ a b, lt a b = false → R b a) :
    ∀ (fuel : Nat) (xs ys : List α),
      xs.length + ys.length ≤ fuel → xs.Pairwise R → ys.Pairwise R →
      (jsMergeFuel lt fuel xs ys).Pairwise R := by
  intro fuel
  induction fuel with
  | zero =>
    intro xs ys hlen hxs hys
    cases xs with
    | nil =>
      cases ys with
      | nil => simp [jsMergeFuel]
      | cons y ys =>
        simp only [List.length_cons] at hlen
        omega
    | cons x xs =>
      simp only [List.length_cons] at hlen
      omega
  | succ fuel ih =>
    intro xs ys hlen hxs hys
    cases xs with
    | nil => simpa [jsMergeFuel] using hys
    | cons x xs =>
      cases ys with
      | nil => simpa [jsMergeFuel] using hxs
      | cons y ys =>
        rw [jsMergeFuel]
        have hx := List.pairwise_cons.mp hxs
        have hy := List.pairwise_cons.mp hys
        cases hlt : lt y x with
        | true =>
          rw [if_pos rfl]
          rw [List.pairwise_cons]
          refine ⟨?_, ?_⟩
          · intro z hz
            rw [jsMergeFuel_mem] at hz
            rcases hz with hz | hz
            · rcases List.mem_cons.mp hz with rfl | hz
              · exact hT _ _ hlt
              · exact htrans _ _ _ (hT _ _ hlt) (hx.1 z hz)
            · exact hy.1 z hz
          · refine ih (x :: xs) ys ?_ hxs hy.2
            simp only [List.length_cons] at hlen ⊢
            omega
        | false =>
          rw [if_neg (by simp)]
          rw [List.pairwise_cons]
          refine ⟨?_, ?_⟩
          · intro z hz
            rw [jsMergeFuel_mem] at hz
            rcases hz with hz | hz
            · exact hx.1 z hz
            · rcases List.mem_cons.mp hz with rfl | hz
              · exact hF _ _ hlt
              · exact htrans _ _ _ (hF _ _ hlt) (hy.1 z hz)
          · refine ih xs (y :: ys) ?_ hx.2 hys
            simp only [List.length_cons] at hlen ⊢
            omega

lemma jsSplit_append {α : Type} (l : List α) :
    (jsSplit l).1 ++ (jsSplit l).2 = l :=
  List.take_append_drop _ l

lemma jsSortFuel_pairwise {α : Type} {R : α → α → Prop} (lt : α → α → Bool)
    (htrans : ∀ a b c, R a b → R b c → R a c)
    (hT : ∀ a b, lt a b = true → R a b)
    (hF : ∀ a b, lt a b = false → R b a) :
    ∀ (fuel : Nat) (l : List α), l.length ≤ fuel →
      (jsSortFuel lt fuel l).Pairwise R := by
  intro fuel
  induction fuel with
  | zero =>
    intro l hlen
    cases l with
    | nil => simp [jsSortFuel]
    | cons x l =>
      simp only [List.length_cons] at hlen
      omega
  | succ fuel ih =>
    intro l hlen
    cases l with
    | nil => simp [jsSortFuel]
    | cons x l' =>
      cases l' with
      | nil => simp [jsSortFuel]
      | cons y rest =>
        rw [jsSortFuel]
        have hx1 : (jsSplit (x :: y :: rest)).1.length ≤ fuel := by
          simp only [jsSplit, List.length_take, List.length_cons]
          simp only [List.length_cons] at hlen
          omega
        have hx2 : (jsSplit (x :: y :: rest)).2.length ≤ fuel := by
          simp only [jsSplit, List.length_drop, List.length_cons]
          simp only [List.length_cons] at hlen
          omega
        exact jsMergeFuel_pairwise lt htrans hT hF _ _ _ le_rfl
          (ih _ hx1) (ih _ hx2)

lemma jsSort_pairwise {α : Type} {R : α → α → Prop} (lt : α → α → Bool)
    (htrans : ∀ a b c, R a b → R b c → R a c)
    (hT : ∀ a b, lt a b = true → R a b)
    (hF : ∀ a b, lt a b = false → R b a) (l : List α) :
    (jsSort lt l).Pairwise R :=
  jsSortFuel_pairwise lt htrans hT hF l.length l le_rfl

lemma jsMergeFuel_filter_key {α : Type} (key : α → Int) (lt : α → α → Bool)
    (hlt : ∀ a b, lt a b = true ↔ key a < key b) (k : Int) :
    ∀ (fuel : Nat) (xs ys : List α),
      xs.length + ys.length ≤ fuel →
      xs.Pairwise (fun a b => key a ≤ key b) →
      (jsMergeFuel lt fuel xs ys).filter (fun z => key z == k) =
        xs.filter (fun z => key z == k) ++
          ys.filter (fun z => key z == k) := by
  intro fuel
  induction fuel with
  | zero =>
    intro xs ys hlen hxs
    simp [jsMergeFuel, List.filter_append]
  | succ fuel ih =>
    intro xs ys hlen hxs
    cases xs with
    | nil => simp [jsMergeFuel]
    | cons x xs =>
      cases ys with
      | nil => simp [jsMergeFuel]
      | cons y ys =>
        rw [jsMergeFuel]
        have hx := List.pairwise_cons.mp hxs
        have hlen' : ∀ c, (c :: xs).length + ys.length ≤ fuel := by
          intro c
          simp only [List.length_cons] at hlen ⊢
          omega
        cases hlt' : lt y x with
        | true =>
          rw [if_pos rfl]
          have hkyx : key y < key x := (hlt y x).mp hlt'
          have hIH := ih (x :: xs) ys (hlen' x) hxs
          by_cases hpy : key y = k
          · have hxfil : (x :: xs).filter (fun z => key z == k) = [] := by
              rw [List.filter_eq_nil_iff]
              intro z hz
              have hxz : key x ≤ key z := by
                rcases List.mem_cons.mp hz with rfl | hz'
                · exact le_rfl
                · exact hx.1 z hz'
              simp only [beq_iff_eq]
              omega
            simp [List.filter_cons, hpy, hIH, hxfil]
          · simp [List.filter_cons, hpy, hIH]
        | false =>
          rw [if_neg (by simp)]
          have hIH := ih xs (y :: ys) (by
            simp only [List.length_cons] at hlen ⊢
            omega) hx.2
          by_cases hpx : key x = k
          · simp [List.filter_cons, hpx, hIH]
          · simp [List.filter_cons, hpx, hIH]

lemma jsSortFuel_filter_key {α : Type} (key : α → Int) (lt : α → α → Bool)
    (hlt : ∀ a b, lt a b = true ↔ key a < key b) (k : Int) :
    ∀ (fuel : Nat) (l : List α), l.length ≤ fuel →
      (jsSortFuel lt fuel l).filter (fun z => key z == k) =
        l.filter (fun z => key z == k) := by
  have hT : ∀ a b, lt a b = true → key a ≤ key b :=
    fun a b h => le_of_lt ((hlt a b).mp h)
  have hF : ∀ a b, lt a b = false → key b ≤ key a := by
    intro a b h
    by_contra hcon
    have hk := (hlt a b).mpr (lt_of_not_le hcon)
    rw [h] at hk
    exact Bool.false_ne_true hk
  intro fuel
  induction fuel with
  | zero => intro l hlen; simp [jsSortFuel]
  | succ fuel ih =>
    intro l hlen
    cases l with
    | nil => simp [jsSortFuel]
    | cons x l' =>
      cases l' with
      | nil => simp [jsSortFuel]
      | cons y rest =>
        rw [jsSortFuel]
        have hx1 : (jsSplit (x :: y :: rest)).1.length ≤ fuel := by
          simp only [jsSplit, List.length_take, List.length_cons]
          simp only [List.length_cons] at hlen
          omega
        have hx2 : (jsSplit (x :: y :: rest)).2.length ≤ fuel := by
          simp only [jsSplit, List.length_drop, List.length_cons]
          simp only [List.length_cons] at hlen
          omega
        have hsorted : (jsSortFuel lt fuel
            (jsSplit (x :: y :: rest)).1).Pairwise
            (fun a b => key a ≤ key b) :=
          jsSortFuel_pairwise (R := fun a b => key a ≤ key b) lt
            (fun a b c => le_trans) hT hF fuel _ hx1
        show (jsMerge lt _ _).filter (fun z => key z == k) = _
        rw [jsMerge]
        rw [jsMergeFuel_filter_key key lt hlt k _ _ _ le_rfl hsorted]
        rw [ih _ hx1, ih _ hx2]
        rw [← List.filter_append, jsSplit_append]

lemma jsSort_filter_key {α : Type} (key : α → Int) (lt : α → α → Bool)
    (hlt : ∀ a b, lt a b = true ↔ key a < key b) (k : Int) (l : List α) :
    (jsSort lt l).filter (fun z => key z == k) =
      l.filter (fun z => key z == k) :=
  jsSortFuel_filter_key key lt hlt k l.length l le_rfl

/-- Completed sample task, id "5". -/
def tC : Task :=
  { id := "5", title := "Done thing", description := "",
    dueDate := "2024-01-02", createdAt := "2024-01-02T00:00:00",
    priority := 3, completed := true }

/-- Task with an empty title, which the schema rejects. -/
def tBad : Task :=
  { id := "7", title := "", description := "",
    dueDate := "2024-01-05", createdAt := "2024-01-05T00:00:00",
    priority := 2, completed := false }

/-- A two-task store containing one completed task, memory and disk in
agreement. -/
def store2 : Store := ⟨[tA, tC], [tA, tC]⟩

/-! ### C1 — in-memory state after a failed persist -/

/-- C1 counterexample: starting from a store whose memory equals the last
successfully persisted collection (both empty), an Add whose `db.write`
fails reports a persistence error yet keeps the pushed task in memory, so
the in-memory collection no longer equals the collection as of the last
successful persist. -/
theorem claim1_counterexample :
    store0.mem = store0.disk
    ∧ (addTask dvAll store0 tA false).2 = OpResult.persistError
    ∧ (addTask dvAll store0 tA false).1.mem ≠ store0.disk := by
  decide

/-- C1 amended: when the persistence step fails, each mutating operation
reports the failure but retains the full in-memory mutation — Add keeps the
appended task, Update the in-place replacement, Complete the set flag,
Remove and ClearCompleted the filtered collection — while the disk keeps the
last persisted state; nothing is rolled back and memory diverges from disk. -/
theorem claim1_amended (dateValid : String → Bool) (s : Store) (t : Task)
    (tid title description dueDate : String) (priority : ℚ)
    (hvalid : taskSchemaCheck dateValid t = true) :
    addTask dateValid s t false =
      (⟨s.mem ++ [t], s.disk⟩, OpResult.persistError)
    ∧ (∀ old, findById s.mem tid = some old →
        taskSchemaCheck dateValid
          (mergeTask old title description dueDate priority) = true →
        updateTask dateValid s tid title description dueDate priority false =
          (⟨s.mem.set (s.mem.findIdx (fun x => x.id == tid))
              (mergeTask old title description dueDate priority), s.disk⟩,
            OpResult.persistError))
    ∧ (findById s.mem tid ≠ none →
        (markComplete s tid false).2 = OpResult.persistError
        ∧ (markComplete s tid false).1.disk = s.disk
        ∧ ∃ v, findById (markComplete s tid false).1.mem tid = some v
            ∧ v.completed = true)
    ∧ (s.mem ≠ [] →
        removeTask s tid true false =
          (⟨s.mem.filter (fun x => !(x.id == tid)), s.disk⟩,
            OpResult.persistError))
    ∧ ((s.mem.filter (fun x => x.completed)).length ≠ 0 →
        clearCompleted s true false =
          (⟨s.mem.filter (fun x => !x.completed), s.disk⟩,
            (s.mem.filter (fun x => x.completed)).length,
            OpResult.persistError)) := by
  refine ⟨by simp [addTask, hvalid], ?_, ?_, ?_, ?_⟩
  · intro old hold hv
    have hne : s.mem.isEmpty = false := by
      cases hmem : s.mem
      · rw [hmem] at hold; simp [findById] at hold
      · rfl
    simp [updateTask, hne, hold, hv]
  · intro hfind
    simp only [findById] at hfind
    have hlt := (findIdx_lt_iff_find? (fun t => t.id == tid) s.mem).mpr hfind
    have heq : markComplete s tid false =
        (⟨s.mem.set (s.mem.findIdx (fun t => t.id == tid))
            { s.mem.get ⟨s.mem.findIdx (fun t => t.id == tid), hlt⟩ with
                completed := true }, s.disk⟩, OpResult.persistError) := by
      simp only [markComplete]
      rw [dif_pos hlt]
      simp
    refine ⟨by rw [heq], by rw [heq], ?_⟩
    refine ⟨{ s.mem.get ⟨s.mem.findIdx (fun t => t.id == tid), hlt⟩ with
      completed := true }, ?_, rfl⟩
    rw [heq]
    show ((s.mem.set (s.mem.findIdx (fun t => t.id == tid))
        { s.mem.get ⟨s.mem.findIdx (fun t => t.id == tid), hlt⟩ with
            completed := true }).find?
        (fun t => t.id == tid)) = some _
    apply find?_set_findIdx
    exact findIdx_pred_true (fun t => t.id == tid) s.mem hlt
    exact hlt
  · intro hne
    have hne' : s.mem.isEmpty = false := by
      cases hmem : s.mem
      · exact absurd hmem hne
      · rfl
    simp [removeTask, hne']
  · intro hcount
    simp [clearCompleted, hcount]

/-- C1 amended witness: the amended behaviour at a concrete store whose
memory and disk agree on two tasks, one of them completed. -/
theorem claim1_amended_witness :
    addTask dvAll store2 tB false =
      (⟨store2.mem ++ [tB], store2.disk⟩, OpResult.persistError)
    ∧ updateTask dvAll store2 "1" "t" "" "2024-01-05" 2 false =
      (⟨store2.mem.set (store2.mem.findIdx (fun x => x.id == "1"))
          (mergeTask tA "t" "" "2024-01-05" 2), store2.disk⟩,
        OpResult.persistError)
    ∧ (markComplete store2 "1" false).2 = OpResult.persistError
    ∧ removeTask store2 "1" true false =
      (⟨store2.mem.filter (fun x => !(x.id == "1")), store2.disk⟩,
        OpResult.persistError)
    ∧ clearCompleted store2 true false =
      (⟨store2.mem.filter (fun x => !x.completed), store2.disk⟩,
        (store2.mem.filter (fun x => x.completed)).length,
        OpResult.persistError) := by
  have h := claim1_amended dvAll store2 tB "1" "t" "" "2024-01-05" 2
    (by decide)
  exact ⟨h.1, h.2.1 tA (by decide) (by decide), (h.2.2.1 (by decide)).1,
    h.2.2.2.1 (by decide), h.2.2.2.2 (by decide)⟩

/-! ### C2 — the validation gate -/

/-- C2 counterexample: the task `tHalf` has priority 3/2, which is not in
the set containing 1, 2 and 3, yet `addTask` validates it and appends it:
the operation succeeds and changes the collection instead of failing with a
validation error. -/
theorem claim2_counterexample :
    tHalf.priority ≠ 1 ∧ tHalf.priority ≠ 2 ∧ tHalf.priority ≠ 3
    ∧ (addTask dvAll store0 tHalf true).2 = OpResult.ok
    ∧ (addTask dvAll store0 tHalf true).1.mem ≠ store0.mem := by
  decide

/-- C2 amended: the validator fails exactly when the title has length zero
(no trimming, so whitespace-only titles pass), the date oracle rejects the
due date, or the priority lies outside the interval from 1 to 3 — any
number inside the interval, integral or not, is accepted.  When validation
fails, Add and Update return a validation error and leave the store
unchanged. -/
theorem claim2_amended (dateValid : String → Bool) (s : Store) (t : Task)
    (tid title description dueDate : String) (priority : ℚ) (wk : Bool) :
    (taskSchemaCheck dateValid t = false ↔
      (t.title.length = 0 ∨ dateValid t.dueDate = false
        ∨ t.priority < 1 ∨ 3 < t.priority))
    ∧ (taskSchemaCheck dateValid t = false →
        addTask dateValid s t wk = (s, OpResult.validationError))
    ∧ (∀ old, findById s.mem tid = some old →
        taskSchemaCheck dateValid
          (mergeTask old title description dueDate priority) = false →
        updateTask dateValid s tid title description dueDate priority wk =
          (s, OpResult.validationError)) := by
  refine ⟨?_, ?_, ?_⟩
  · simp only [taskSchemaCheck, Bool.and_eq_false_iff,
      decide_eq_false_iff_not, not_le, Bool.not_eq_true]
    have hlen : t.title.length < 1 ↔ t.title.length = 0 := by omega
    rw [hlen]
    tauto
  · intro h
    simp [addTask, h]
  · intro old hold hv
    have hne : s.mem.isEmpty = false := by
      cases hmem : s.mem
      · rw [hmem] at hold; simp [findById] at hold
      · rfl
    simp [updateTask, hne, hold, hv]

/-- C2 amended witness: at a concrete empty-title task, validation fails for
exactly the characterised reason and both Add and Update reject it leaving
the store unchanged. -/
theorem claim2_amended_witness :
    (taskSchemaCheck dvAll tBad = false ↔
      (tBad.title.length = 0 ∨ dvAll tBad.dueDate = false
        ∨ tBad.priority < 1 ∨ 3 < tBad.priority))
    ∧ addTask dvAll store1 tBad true = (store1, OpResult.validationError)
    ∧ updateTask dvAll store1 "1" "" "" "2024-01-05" 2 true =
        (store1, OpResult.validationError) := by
  have h := claim2_amended dvAll store1 tBad "1" "" "" "2024-01-05" 2 true
  exact ⟨h.1, h.2.1 (by decide), h.2.2 tA (by decide) (by decide)⟩

/-! ### C3 — Remove -/

/-- C3 counterexample: removing an id that is not present does not fail with
a not-found error — the filter removes nothing, the write succeeds and the
operation reports plain success. -/
theorem claim3_counterexample :
    findById store1.mem "99" = none
    ∧ (removeTask store1 "99" true true).2 = OpResult.ok
    ∧ (removeTask store1 "99" true true).2 ≠ OpResult.notFound := by
  decide

/-- C3 amended: Remove never checks presence: with an absent id it leaves
the collection unchanged and does not report a not-found error; in all cases
(confirmed, write succeeding) no task with the removed id remains, so a
subsequent `findById` of that id yields none. -/
theorem claim3_amended (s : Store) (taskId : String) :
    findById ((removeTask s taskId true true).1.mem) taskId = none
    ∧ (findById s.mem taskId = none →
        (removeTask s taskId true true).1.mem = s.mem
        ∧ (removeTask s taskId true true).2 ≠ OpResult.notFound) := by
  obtain ⟨mem, disk⟩ := s
  cases mem with
  | nil =>
    refine ⟨by simp [removeTask, findById], ?_⟩
    intro _
    exact ⟨rfl, by simp [removeTask]⟩
  | cons a l =>
    have hrem : removeTask ⟨a :: l, disk⟩ taskId true true =
        (⟨(a :: l).filter (fun t => !(t.id == taskId)),
          (a :: l).filter (fun t => !(t.id == taskId))⟩, OpResult.ok) := by
      simp [removeTask]
    refine ⟨?_, ?_⟩
    · rw [hrem]
      simp only [findById]
      rw [List.find?_eq_none]
      intro x hx
      have := List.of_mem_filter hx
      simpa using this
    · intro hnone
      simp only [findById] at hnone
      rw [List.find?_eq_none] at hnone
      have hfix : (a :: l).filter (fun t => !(t.id == taskId)) = a :: l := by
        rw [List.filter_eq_self]
        intro x hx
        simpa using hnone x hx
      rw [hrem]
      exact ⟨by simpa using hfix, by simp⟩

/-- C3 amended witness: the amended behaviour at a one-task store and an
absent id. -/
theorem claim3_amended_witness :
    findById ((removeTask store1 "99" true true).1.mem) "99" = none
    ∧ (removeTask store1 "99" true true).1.mem = store1.mem
    ∧ (removeTask store1 "99" true true).2 ≠ OpResult.notFound := by
  have h := claim3_amended store1 "99"
  exact ⟨h.1, (h.2 (by decide)).1, (h.2 (by decide)).2⟩

/-! ### C4 — id uniqueness on Add -/

/-- C4 counterexample: `addTask` performs no duplicate-id check: adding a
validated task whose id equals that of a task already in the store succeeds
and leaves the collection with two tasks sharing an id. -/
theorem claim4_counterexample :
    tDupA.id = tA.id
    ∧ tA ∈ store1.mem
    ∧ (addTask dvAll store1 tDupA true).2 = OpResult.ok
    ∧ ((addTask dvAll store1 tDupA true).1.mem.filter
        (fun x => x.id == tDupA.id)).length = 2 := by
  decide

/-- C4 amended: Add appends any validated task unconditionally — there is no
duplicate-id failure — so adding a task whose id is already present succeeds
and produces a collection with at least two tasks carrying that id;
uniqueness rests solely on the `Date.now()` id-generation strategy. -/
theorem claim4_amended (dateValid : String → Bool) (s : Store) (t u : Task)
    (hu : u ∈ s.mem) (hid : u.id = t.id)
    (hvalid : taskSchemaCheck dateValid t = true) :
    addTask dateValid s t true =
      (⟨s.mem ++ [t], s.mem ++ [t]⟩, OpResult.ok)
    ∧ 2 ≤ ((s.mem ++ [t]).filter (fun x => x.id == t.id)).length := by
  refine ⟨by simp [addTask, hvalid], ?_⟩
  rw [List.filter_append, List.length_append]
  have h1 : u ∈ s.mem.filter (fun x => x.id == t.id) :=
    List.mem_filter.mpr ⟨hu, by simp [hid]⟩
  have h2 : 0 < (s.mem.filter (fun x => x.id == t.id)).length :=
    List.length_pos_of_mem h1
  have h3 : ([t].filter (fun x => x.id == t.id)).length = 1 := by simp
  omega

/-- C4 amended witness: the amended behaviour at the concrete duplicate
`tDupA` over the one-task store holding `tA`. -/
theorem claim4_amended_witness :
    addTask dvAll store1 tDupA true =
      (⟨store1.mem ++ [tDupA], store1.mem ++ [tDupA]⟩, OpResult.ok)
    ∧ 2 ≤ ((store1.mem ++ [tDupA]).filter
        (fun x => x.id == tDupA.id)).length :=
  claim4_amended dvAll store1 tDupA tA (by decide) (by decide) (by decide)

/-! ### C9 — load with an empty or absent tasks field -/

/-- C9 counterexample: a persisted document that exists but lacks the tasks
field is truthy, so `db.data ||= { tasks: [] }` keeps it unchanged: after
initialisation the store still has no task collection at all instead of an
empty one. -/
theorem claim9_counterexample :
    (⟨none⟩ : DBDoc).tasks = none
    ∧ initializeDB (some ⟨none⟩) ≠ (⟨some []⟩ : DBDoc)
    ∧ (initializeDB (some ⟨none⟩)).tasks = none := by
  decide

/-- C9 amended: initialisation installs the empty collection exactly when
no document is present (missing file or null/falsy document); any existing
document is kept verbatim, so a document whose tasks field holds the empty
list does come out as the empty collection, but a document without a tasks
field keeps lacking one — the claim holds for the empty-field and
no-document cases and fails only for the present-document, absent-field
case of the counterexample. -/
theorem claim9_amended :
    initializeDB none = (⟨some []⟩ : DBDoc)
    ∧ initializeDB (some ⟨some []⟩) = (⟨some []⟩ : DBDoc)
    ∧ ∀ d : DBDoc, initializeDB (some d) = d :=
  ⟨rfl, rfl, fun _ => rfl⟩

/-! ### C5 — sorting by date -/

/-- C5: listing sorted by due date returns a sequence whose parsed due
dates are non-decreasing, and tasks with equal due dates keep the relative
order they had in the snapshot being displayed: filtering the output down
to the tasks of any one date value gives exactly the corresponding filter
of the input, which is the standard statement of stability.  The same holds
for sorting by creation date.  The comparator reports ties as `1`, but the
sort consults it only through the `cmp < 0` test, which for the date keys
is exactly the strict order on parsed dates, so ties are never inverted. -/
theorem claim5 (parse : String → Int) (tasks : List Task)
    (showCompleted : Bool) :
    (listTasks parse tasks SortKey.dueDate showCompleted).Pairwise
      (fun a b => parse a.dueDate ≤ parse b.dueDate)
    ∧ (∀ k : Int,
        (listTasks parse tasks SortKey.dueDate showCompleted).filter
          (fun t => parse t.dueDate == k) =
        (if showCompleted then tasks
         else tasks.filter (fun t => !t.completed)).filter
          (fun t => parse t.dueDate == k))
    ∧ (listTasks parse tasks SortKey.createdAt showCompleted).Pairwise
      (fun a b => parse a.createdAt ≤ parse b.createdAt)
    ∧ (∀ k : Int,
        (listTasks parse tasks SortKey.createdAt showCompleted).filter
          (fun t => parse t.createdAt == k) =
        (if showCompleted then tasks
         else tasks.filter (fun t => !t.completed)).filter
          (fun t => parse t.createdAt == k)) := by
  have hltDue : ∀ a b : Task,
      (decide (sortComparator parse SortKey.dueDate a b < 0) = true) ↔
        parse a.dueDate < parse b.dueDate := by
    intro a b
    by_cases hab : parse a.dueDate < parse b.dueDate
    · norm_num [sortComparator, hab]
    · norm_num [sortComparator, hab]
  have hltCreated : ∀ a b : Task,
      (decide (sortComparator parse SortKey.createdAt a b < 0) = true) ↔
        parse a.createdAt < parse b.createdAt := by
    intro a b
    by_cases hab : parse a.createdAt < parse b.createdAt
    · norm_num [sortComparator, hab]
    · norm_num [sortComparator, hab]
  refine ⟨?_, ?_, ?_, ?_⟩
  · simp only [listTasks]
    apply jsSort_pairwise
    · exact fun a b c => le_trans
    · exact fun a b h => le_of_lt ((hltDue a b).mp h)
    · intro a b h
      by_contra hcon
      exact absurd ((hltDue a b).mpr (lt_of_not_le hcon)) (by simp [h])
  · intro k
    simp only [listTasks]
    exact jsSort_filter_key (fun t : Task => parse t.dueDate) _ hltDue k _
  · simp only [listTasks]
    apply jsSort_pairwise
    · exact fun a b c => le_trans
    · exact fun a b h => le_of_lt ((hltCreated a b).mp h)
    · intro a b h
      by_contra hcon
      exact absurd ((hltCreated a b).mpr (lt_of_not_le hcon)) (by simp [h])
  · intro k
    simp only [listTasks]
    exact jsSort_filter_key (fun t : Task => parse t.createdAt) _ hltCreated k _

example : listTasks parseLen [tA, tB] SortKey.dueDate true = [tA, tB] := by
  decide

/-! ### C8 — ClearCompleted -/

/-- C8: after a confirmed ClearCompleted whose write succeeds, no remaining
task is completed, the reported count equals the number of completed tasks
before the operation (possibly zero), and the operation never fails when
there is nothing to remove — with an all-incomplete collection it is a
no-operation that leaves the store untouched. -/
theorem claim8 (s : Store) :
    (∀ t ∈ (clearCompleted s true true).1.mem, t.completed = false)
    ∧ (clearCompleted s true true).2.1 =
        (s.mem.filter (fun t => t.completed)).length
    ∧ ((clearCompleted s true true).2.2 = OpResult.ok
        ∨ (clearCompleted s true true).2.2 = OpResult.noop)
    ∧ ((s.mem.filter (fun t => t.completed)).length = 0 →
        (clearCompleted s true true).2.2 = OpResult.noop
        ∧ (clearCompleted s true true).1 = s) := by
  by_cases hc : (s.mem.filter (fun t => t.completed)).length = 0
  · have heq : clearCompleted s true true = (s, 0, OpResult.noop) := by
      simp [clearCompleted, hc]
    rw [heq]
    have hnil : s.mem.filter (fun t => t.completed) = [] :=
      List.length_eq_zero.mp hc
    refine ⟨?_, by rw [hc], Or.inr rfl, fun _ => ⟨rfl, rfl⟩⟩
    intro t ht
    by_contra hcontra
    have htc : t.completed = true := by
      cases htcv : t.completed
      · exact absurd htcv hcontra
      · rfl
    have : t ∈ s.mem.filter (fun t => t.completed) :=
      List.mem_filter.mpr ⟨ht, htc⟩
    rw [hnil] at this
    exact absurd this (List.not_mem_nil t)
  · have heq : clearCompleted s true true =
        (⟨s.mem.filter (fun t => !t.completed),
          s.mem.filter (fun t => !t.completed)⟩,
          (s.mem.filter (fun t => t.completed)).length, OpResult.ok) := by
      simp [clearCompleted, hc]
    rw [heq]
    refine ⟨?_, rfl, Or.inl rfl, fun h => absurd h hc⟩
    intro t ht
    have := List.of_mem_filter ht
    simpa using this

/-- C8 witness: the property at the two-task store with one completed task,
and the nothing-to-remove case at the all-incomplete one-task store. -/
theorem claim8_witness :
    (clearCompleted store2 true true).2.1 =
      (store2.mem.filter (fun t => t.completed)).length
    ∧ ((clearCompleted store2 true true).2.2 = OpResult.ok
        ∨ (clearCompleted store2 true true).2.2 = OpResult.noop)
    ∧ (clearCompleted store1 true true).2.2 = OpResult.noop
    ∧ (clearCompleted store1 true true).1 = store1 := by
  have h2 := claim8 store2
  have h1 := claim8 store1
  exact ⟨h2.2.1, h2.2.2.1, (h1.2.2.2 (by decide)).1, (h1.2.2.2 (by decide)).2⟩

/-! ### C10 — mutations preserve relative order -/

/-- C10: each mutating operation preserves the relative order of the tasks
it keeps: Add appends at the end, Update and Complete overwrite in place at
the found index, and Remove and ClearCompleted produce order-preserving
sublists of the original collection. -/
theorem claim10 (dateValid : String → Bool) (s : Store) (t : Task)
    (tid title description dueDate : String) (priority : ℚ)
    (confirm wk : Bool) :
    (taskSchemaCheck dateValid t = true →
      (addTask dateValid s t wk).1.mem = s.mem ++ [t])
    ∧ (∀ old, findById s.mem tid = some old →
        taskSchemaCheck dateValid
          (mergeTask old title description dueDate priority) = true →
        (updateTask dateValid s tid title description dueDate priority
            wk).1.mem =
          s.mem.set (s.mem.findIdx (fun x => x.id == tid))
            (mergeTask old title description dueDate priority))
    ∧ (∀ h : s.mem.findIdx (fun x => x.id == tid) < s.mem.length,
        (markComplete s tid wk).1.mem =
          s.mem.set (s.mem.findIdx (fun x => x.id == tid))
            { s.mem.get ⟨s.mem.findIdx (fun x => x.id == tid), h⟩ with
                completed := true })
    ∧ List.Sublist ((removeTask s tid confirm wk).1.mem) s.mem
    ∧ List.Sublist ((clearCompleted s confirm wk).1.mem) s.mem := by
  refine ⟨?_, ?_, ?_, ?_, ?_⟩
  · intro h
    cases wk <;> simp [addTask, h]
  · intro old hold hv
    have hne : s.mem.isEmpty = false := by
      cases hmem : s.mem
      · rw [hmem] at hold; simp [findById] at hold
      · rfl
    cases wk <;> simp [updateTask, hne, hold, hv]
  · intro h
    have heq : ∀ wk', markComplete s tid wk' =
        (if wk' then
          (⟨s.mem.set (s.mem.findIdx (fun x => x.id == tid))
              { s.mem.get ⟨s.mem.findIdx (fun x => x.id == tid), h⟩ with
                  completed := true },
            s.mem.set (s.mem.findIdx (fun x => x.id == tid))
              { s.mem.get ⟨s.mem.findIdx (fun x => x.id == tid), h⟩ with
                  completed := true }⟩, OpResult.ok)
        else
          (⟨s.mem.set (s.mem.findIdx (fun x => x.id == tid))
              { s.mem.get ⟨s.mem.findIdx (fun x => x.id == tid), h⟩ with
                  completed := true }, s.disk⟩, OpResult.persistError)) := by
      intro wk'
      simp only [markComplete]
      rw [dif_pos h]
    cases wk <;> simp [heq]
  · obtain ⟨mem, disk⟩ := s
    cases mem with
    | nil => simp [removeTask]
    | cons a l =>
      cases confirm with
      | false => simp [removeTask]
      | true =>
        cases wk <;> simp [removeTask]
  · by_cases hc : (s.mem.filter (fun x => x.completed)).length = 0
    · simp [clearCompleted, hc]
    · cases confirm with
      | false => simp [clearCompleted, hc]
      | true =>
        cases wk <;> simp [clearCompleted, hc]

/-- C10 witness: the order-preservation shapes at concrete stores. -/
theorem claim10_witness :
    (addTask dvAll store1 tB true).1.mem = store1.mem ++ [tB]
    ∧ (updateTask dvAll store1 "1" "t" "" "2024-01-05" 2 true).1.mem =
        store1.mem.set (store1.mem.findIdx (fun x => x.id == "1"))
          (mergeTask tA "t" "" "2024-01-05" 2)
    ∧ (markComplete store1 "1" true).1.mem = [{ tA with completed := true }]
    ∧ List.Sublist ((removeTask store1 "1" true true).1.mem) store1.mem
    ∧ List.Sublist ((clearCompleted store2 true true).1.mem) store2.mem := by
  have h1 := claim10 dvAll store1 tB "1" "t" "" "2024-01-05" 2 true true
  have h2 := claim10 dvAll store2 tB "1" "t" "" "2024-01-05" 2 true true
  refine ⟨h1.1 (by decide), h1.2.1 tA (by decide) (by decide), ?_,
    h1.2.2.2.1, h2.2.2.2.2⟩
  exact (h1.2.2.1 (by decide)).trans (by decide)

/-! ### C6 — Complete -/

lemma markComplete_found (s : Store) (tid : String)
    (h : findById s.mem tid ≠ none) :
    (markComplete s tid true).2 = OpResult.ok
    ∧ ∃ v, findById (markComplete s tid true).1.mem tid = some v
        ∧ v.completed = true := by
  simp only [findById] at h
  have hlt := (findIdx_lt_iff_find? (fun t => t.id == tid) s.mem).mpr h
  have heq : markComplete s tid true =
      (⟨s.mem.set (s.mem.findIdx (fun t => t.id == tid))
          { s.mem.get ⟨s.mem.findIdx (fun t => t.id == tid), hlt⟩ with
              completed := true },
        s.mem.set (s.mem.findIdx (fun t => t.id == tid))
          { s.mem.get ⟨s.mem.findIdx (fun t => t.id == tid), hlt⟩ with
              completed := true }⟩, OpResult.ok) := by
    simp only [markComplete]
    rw [dif_pos hlt]
    simp
  refine ⟨by rw [heq], ?_⟩
  refine ⟨{ s.mem.get ⟨s.mem.findIdx (fun t => t.id == tid), hlt⟩ with
    completed := true }, ?_, rfl⟩
  rw [heq]
  show ((s.mem.set (s.mem.findIdx (fun t => t.id == tid))
      { s.mem.get ⟨s.mem.findIdx (fun t => t.id == tid), hlt⟩ with
          completed := true }).find? (fun t => t.id == tid)) = some _
  apply find?_set_findIdx
  exact findIdx_pred_true (fun t => t.id == tid) s.mem hlt
  exact hlt

/-- C6: Complete(id) reports not-found exactly when no task with the id
exists among all tasks; when the id exists — whether or not that task is
already completed — the operation succeeds and the task found under the id
afterwards has its completed flag true, and completing the same id a second
time succeeds again with the flag still true. -/
theorem claim6 (s : Store) (tid : String) :
    ((markComplete s tid true).2 = OpResult.notFound ↔
      findById s.mem tid = none)
    ∧ (findById s.mem tid ≠ none →
        (markComplete s tid true).2 = OpResult.ok
        ∧ (∃ v, findById (markComplete s tid true).1.mem tid = some v
            ∧ v.completed = true)
        ∧ (markComplete (markComplete s tid true).1 tid true).2 =
            OpResult.ok
        ∧ ∃ w, findById
            (markComplete (markComplete s tid true).1 tid true).1.mem tid =
              some w
            ∧ w.completed = true) := by
  constructor
  · by_cases h : findById s.mem tid = none
    · have hnlt : ¬ s.mem.findIdx (fun t => t.id == tid) < s.mem.length := by
        rw [findIdx_lt_iff_find?]
        simp only [findById] at h
        simp [h]
      have heq : markComplete s tid true = (s, OpResult.notFound) := by
        simp only [markComplete]
        rw [dif_neg hnlt]
      rw [heq, h]
      simp
    · have hok := (markComplete_found s tid h).1
      rw [hok]
      simp [h]
  · intro h
    obtain ⟨hok, v, hv, hvc⟩ := markComplete_found s tid h
    have h2 : findById (markComplete s tid true).1.mem tid ≠ none := by
      rw [hv]; simp
    obtain ⟨hok2, w, hw, hwc⟩ :=
      markComplete_found (markComplete s tid true).1 tid h2
    exact ⟨hok, ⟨v, hv, hvc⟩, hok2, ⟨w, hw, hwc⟩⟩

/-- C6 witness: at the one-task store, completing the present id succeeds
twice over while an absent id is reported not-found. -/
theorem claim6_witness :
    ((markComplete store1 "99" true).2 = OpResult.notFound ↔
      findById store1.mem "99" = none)
    ∧ (markComplete store1 "1" true).2 = OpResult.ok
    ∧ (markComplete (markComplete store1 "1" true).1 "1" true).2 =
        OpResult.ok := by
  have h99 := claim6 store1 "99"
  have h1 := claim6 store1 "1"
  exact ⟨h99.1, (h1.2 (by decide)).1, (h1.2 (by decide)).2.2.1⟩

/-! ### C7 — Update preserves id and createdAt -/

/-- C7: after a successful Update, the task found under the updated id is
exactly the merge of the previously stored task with the new title,
description, due date and priority; its id, creation timestamp and even its
completion flag are those of the old task — only the four merged fields can
change. -/
theorem claim7 (dateValid : String → Bool) (s : Store)
    (tid title description dueDate : String) (priority : ℚ) (wk : Bool)
    (old : Task) (hold : findById s.mem tid = some old)
    (hok : (updateTask dateValid s tid title description dueDate priority
        wk).2 = OpResult.ok) :
    findById (updateTask dateValid s tid title description dueDate priority
        wk).1.mem tid = some (mergeTask old title description dueDate
          priority)
    ∧ (mergeTask old title description dueDate priority).id = old.id
    ∧ (mergeTask old title description dueDate priority).createdAt =
        old.createdAt
    ∧ (mergeTask old title description dueDate priority).completed =
        old.completed := by
  have hne : s.mem.isEmpty = false := by
    cases hmem : s.mem
    · rw [hmem] at hold; simp [findById] at hold
    · rfl
  by_cases hv : taskSchemaCheck dateValid
      (mergeTask old title description dueDate priority) = true
  · cases wk with
    | false =>
      exfalso
      have hres : (updateTask dateValid s tid title description dueDate
          priority false).2 = OpResult.persistError := by
        simp [updateTask, hne, hold, hv]
      rw [hres] at hok
      exact OpResult.noConfusion hok
    | true =>
      have heq : updateTask dateValid s tid title description dueDate
          priority true =
          (⟨s.mem.set (s.mem.findIdx (fun t => t.id == tid))
              (mergeTask old title description dueDate priority),
            s.mem.set (s.mem.findIdx (fun t => t.id == tid))
              (mergeTask old title description dueDate priority)⟩,
            OpResult.ok) := by
        simp [updateTask, hne, hold, hv]
      rw [heq]
      refine ⟨?_, rfl, rfl, rfl⟩
      have hfind : List.find? (fun t : Task => t.id == tid) s.mem =
          some old := by simpa [findById] using hold
      have hpold := List.find?_some hfind
      have hlt : s.mem.findIdx (fun t => t.id == tid) < s.mem.length := by
        apply (findIdx_lt_iff_find? _ _).mpr
        simp only [findById] at hold
        simp [hold]
      show ((s.mem.set (s.mem.findIdx (fun t => t.id == tid))
          (mergeTask old title description dueDate priority)).find?
          (fun t => t.id == tid)) = some _
      apply find?_set_findIdx
      exact hpold
      exact hlt
  · exfalso
    have hres : (updateTask dateValid s tid title description dueDate
        priority wk).2 = OpResult.validationError := by
      simp [updateTask, hne, hold, hv]
    rw [hres] at hok
    exact OpResult.noConfusion hok

/-- C7 witness: a concrete successful update of the one-task store keeps the
id, creation timestamp and completion flag of the stored task. -/
theorem claim7_witness :
    findById (updateTask dvAll store1 "1" "New" "" "2024-02-02" 1
        true).1.mem "1" = some (mergeTask tA "New" "" "2024-02-02" 1)
    ∧ (mergeTask tA "New" "" "2024-02-02" 1).id = tA.id
    ∧ (mergeTask tA "New" "" "2024-02-02" 1).createdAt = tA.createdAt
    ∧ (mergeTask tA "New" "" "2024-02-02" 1).completed = tA.completed :=
  claim7 dvAll store1 "1" "New" "" "2024-02-02" 1 true tA (by decide)
    (by decide)

end Tasky
